import Mathlib

/-!
Shallow embedding of the core of `blinkie` (`src/core/device.rs`): the
`ProtocolRegistry` (protocol name → priority-ordered handler bucket) and the
`DeviceFactory` (resolves a device `Config` to a device via a handler).

Devices are opaque to the core (`Box<dyn Device>`), so the embedding is
generic over a type `D` of devices.  A `dyn ProtocolHandler` value is a record
of the surface consumed by the core: `name()`, `priority()`,
`supported_protocols()` and `create_device()` (the remaining trait methods are
never called by the registry or factory).  `Result<Box<dyn Device>, String>`
becomes `Except String D`.  The registry's
`HashMap<String, Vec<Arc<RwLock<dyn ProtocolHandler>>>>` becomes a function
`String → Option (List (ProtocolHandler D))`, absent keys mapping to `none`.
-/

/-- Device type tags (`enum Type` in the source; renamed, as `Type` is a Lean
universe keyword). -/
inductive DeviceType where
  | Sensor
  | Actor
  | Switch
  | Controller
  | Cat

/-- Device states (`enum State`). -/
inductive DeviceState where
  | ON
  | OFF
  | RUNNING
  | FINISHED
  | ERROR
  | UNKNOWN
  | PURRING

/-- Device actions (`enum Action` in the source; renamed to avoid a clash
with Mathlib's `Action`). -/
inductive DeviceAction where
  | TurnOn
  | TurnOff
  | Set (params : List (String × String))
  | Reset (reason : String)

/-- `struct Config`: metadata and connection information for a device. -/
structure Config where
  id : String
  name : String
  device_type : DeviceType
  connection_details : List (String × String)
  supported_protocols : List String
  preferred_handler : Option String

/-- The surface of a `dyn ProtocolHandler` consumed by the core: identity,
priority (a `u8` in Rust, only ever compared, so `Nat`), declared protocols,
and device creation.  `D` is the opaque device type. -/
structure ProtocolHandler (D : Type) where
  name : String
  priority : Nat
  supported_protocols : List String
  create_device : Config → Except String D

/-- Registry state: protocol name → bucket of handlers, `none` when the key is
absent from the `HashMap`. -/
def ProtocolRegistry (D : Type) := String → Option (List (ProtocolHandler D))

/-- `ProtocolRegistry::new()`: the empty map. -/
def ProtocolRegistry.new {D : Type} : ProtocolRegistry D := fun _ => none

/-- Descending-priority comparison used by `register`'s
`sort_by(|a, b| b_priority.cmp(&a_priority))`: `a` may precede `b` iff
`b.priority ≤ a.priority`. -/
def priorityGE {D : Type} (x y : ProtocolHandler D) : Prop :=
  y.priority ≤ x.priority

instance {D : Type} : DecidableRel (priorityGE (D := D)) :=
  fun x y => Nat.decLe y.priority x.priority

instance {D : Type} : IsTotal (ProtocolHandler D) priorityGE :=
  ⟨fun a b => Nat.le_total b.priority a.priority⟩

instance {D : Type} : IsTrans (ProtocolHandler D) priorityGE :=
  ⟨fun _ _ _ hab hbc => Nat.le_trans hbc hab⟩

/-- `Vec::sort_by` with the descending-priority comparator is a stable sort;
a stable sort is extensionally determined by its comparator, so we model it by
the stable `insertionSort` on `priorityGE`. -/
def sortBucket {D : Type} (l : List (ProtocolHandler D)) : List (ProtocolHandler D) :=
  l.insertionSort priorityGE

/-- Point update of the registry map. -/
def updateBucket {D : Type} (m : ProtocolRegistry D) (p : String)
    (l : List (ProtocolHandler D)) : ProtocolRegistry D :=
  fun q => if q = p then some l else m q

/-- `ProtocolRegistry::register`: push the handler onto the bucket of every
protocol it declares (`entry(protocol).or_insert_with(Vec::new).push(...)`),
then re-sort every bucket in the map by descending priority. -/
def ProtocolRegistry.register {D : Type} (handler : ProtocolHandler D)
    (m : ProtocolRegistry D) : ProtocolRegistry D :=
  let pushed := handler.supported_protocols.foldl
    (fun acc protocol => updateBucket acc protocol (((acc protocol).getD []) ++ [handler])) m
  fun p => (pushed p).map sortBucket

/-- `ProtocolRegistry::get_handlers`: the cloned snapshot of the bucket, or
`None` when the key is absent. -/
def ProtocolRegistry.get_handlers {D : Type} (m : ProtocolRegistry D) (protocol : String) :
    Option (List (ProtocolHandler D)) :=
  m protocol

/-- Registry states reachable from `ProtocolRegistry::new()` by `register`. -/
inductive ProtocolRegistry.Reachable {D : Type} : ProtocolRegistry D → Prop where
  | new : ProtocolRegistry.Reachable ProtocolRegistry.new
  | step (h : ProtocolHandler D) {m : ProtocolRegistry D} :
      ProtocolRegistry.Reachable m → ProtocolRegistry.Reachable (ProtocolRegistry.register h m)

/-- A whole sequence of registrations, first element registered first. -/
def registerAll {D : Type} (hs : List (ProtocolHandler D)) (m : ProtocolRegistry D) :
    ProtocolRegistry D :=
  hs.foldl (fun acc h => ProtocolRegistry.register h acc) m

/-- The entries `register h` pushes onto bucket `p`: one copy of `h` per
occurrence of `p` in `h.supported_protocols`. -/
def pushesFor {D : Type} (p : String) (h : ProtocolHandler D) : List (ProtocolHandler D) :=
  (h.supported_protocols.filter (fun q => q == p)).map (fun _ => h)

/-- All entries pushed onto bucket `p` by a registration sequence, in the
order they were pushed. -/
def registrationSeq {D : Type} (p : String) (hs : List (ProtocolHandler D)) :
    List (ProtocolHandler D) :=
  hs.flatMap (pushesFor p)

/-- `DeviceFactory::register`, the loop over `config.supported_protocols`
made explicit in the remaining protocol list. -/
def DeviceFactory.registerGo {D : Type} (m : ProtocolRegistry D) (config : Config) :
    List String → Except String D
  | [] => .error ("No compatible protocol handler found for device: " ++ config.name)
  | protocol :: rest =>
    match ProtocolRegistry.get_handlers m protocol with
    | some handlers =>
      match config.preferred_handler with
      | some preferred =>
        match handlers.find? (fun h => h.name == preferred) with
        | some handler => handler.create_device config
        | none =>
          .error ("Preferred handler \x27" ++ preferred ++ "\x27 not found for protocol: "
            ++ protocol)
      | none =>
        match handlers.head? with
        | some handler => handler.create_device config
        | none => DeviceFactory.registerGo m config rest
    | none => DeviceFactory.registerGo m config rest

/-- `DeviceFactory::register(config)` (the factory's `create`):
iterate the configured protocols against the bound registry. -/
def DeviceFactory.register {D : Type} (m : ProtocolRegistry D) (config : Config) :
    Except String D :=
  DeviceFactory.registerGo m config config.supported_protocols

/-- Instrumented copy of the factory loop that also records, in order, the
protocols on which `get_handlers` was consulted before returning. -/
def DeviceFactory.registerProbed {D : Type} (m : ProtocolRegistry D) (config : Config) :
    List String → Except String D × List String
  | [] => (.error ("No compatible protocol handler found for device: " ++ config.name), [])
  | protocol :: rest =>
    match ProtocolRegistry.get_handlers m protocol with
    | some handlers =>
      match config.preferred_handler with
      | some preferred =>
        match handlers.find? (fun h => h.name == preferred) with
        | some handler => (handler.create_device config, [protocol])
        | none =>
          (.error ("Preferred handler \x27" ++ preferred ++ "\x27 not found for protocol: "
            ++ protocol), [protocol])
      | none =>
        match handlers.head? with
        | some handler => (handler.create_device config, [protocol])
        | none =>
          let r := DeviceFactory.registerProbed m config rest
          (r.1, protocol :: r.2)
    | none =>
      let r := DeviceFactory.registerProbed m config rest
      (r.1, protocol :: r.2)

/-! ### Concrete fixtures used to evaluate the theorems on closed inputs.
Devices are instantiated by `Nat` identifiers. -/

/-- A priority-5 zigbee handler whose device creation succeeds with device 1. -/
def H1 : ProtocolHandler Nat :=
  ⟨"H1", 5, ["zigbee"], fun _ => .ok 1⟩

/-- A priority-10 zigbee+wifi handler whose device creation succeeds with
device 2. -/
def H2 : ProtocolHandler Nat :=
  ⟨"H2", 10, ["zigbee", "wifi"], fun _ => .ok 2⟩

/-- A priority-7 zigbee handler whose device creation always fails. -/
def H4 : ProtocolHandler Nat :=
  ⟨"H4", 7, ["zigbee"], fun _ => .error "boom"⟩

/-- A config listing an unregistered protocol first, then wifi and zigbee, with
no preferred handler. -/
def cfgNoPref : Config :=
  ⟨"id1", "lamp", DeviceType.Switch, [], ["nope", "wifi", "zigbee"], none⟩

/-- A config preferring handler `H1` whose first populated protocol (wifi) has
no handler of that name, though the later zigbee bucket does. -/
def cfgPref : Config :=
  ⟨"id2", "lamp2", DeviceType.Switch, [], ["wifi", "zigbee"], some "H1"⟩

/-- A config whose listed protocols have no registered handlers at all. -/
def cfgLost : Config :=
  ⟨"id3", "lamp3", DeviceType.Sensor, [], ["foo", "bar"], none⟩

/-- A config preferring the failing handler `H4` on zigbee. -/
def cfgFail : Config :=
  ⟨"id4", "lamp4", DeviceType.Cat, [], ["zigbee", "wifi"], some "H4"⟩

/-! ### Helper lemmas about the registry -/

/-- Characterization of the push phase of `register`: bucket `p` receives one
copy of `h` per occurrence of `p` in the traversed protocol list, appended in
order; other buckets are untouched. -/
theorem pushes_foldl_apply {D : Type} (h : ProtocolHandler D) :
    ∀ (protos : List String) (m : ProtocolRegistry D) (p : String),
      (protos.foldl
          (fun acc protocol => updateBucket acc protocol (((acc protocol).getD []) ++ [h])) m) p
        = if protos.filter (fun q => q == p) = [] then m p
          else some ((m p).getD [] ++ (protos.filter (fun q => q == p)).map (fun _ => h)) := by
  intro protos
  induction protos with
  | nil => intro m p; simp
  | cons q rest ih =>
    intro m p
    by_cases hqp : q = p
    · subst hqp
      have hq : (q == q) = true := by simp
      rw [List.foldl_cons, ih]
      by_cases hrest : rest.filter (fun x => x == q) = []
      · simp [hrest, hq, updateBucket]
      · simp [hrest, hq, updateBucket, List.append_assoc]
    · have hq : (q == p) = false := by simp [hqp]
      rw [List.foldl_cons, ih]
      simp only [List.filter_cons, hq, Bool.false_eq_true, if_false, cond_false]
      have hmp : updateBucket m q ((m q).getD [] ++ [h]) p = m p := by
        simp only [updateBucket]
        exact if_neg fun hpq => hqp hpq.symm
      rw [hmp]

/-- A handler pushes nothing onto buckets of protocols it does not declare. -/
theorem pushesFor_eq_nil {D : Type} {p : String} {h : ProtocolHandler D}
    (hp : p ∉ h.supported_protocols) : pushesFor p h = [] := by
  simp only [pushesFor, List.map_eq_nil_iff, List.filter_eq_nil_iff]
  intro q hq
  simp only [beq_iff_eq]
  exact fun hqp => hp (hqp ▸ hq)

/-- A handler pushes at least one entry onto each declared protocol's bucket. -/
theorem pushesFor_ne_nil {D : Type} {p : String} {h : ProtocolHandler D}
    (hp : p ∈ h.supported_protocols) : pushesFor p h ≠ [] := by
  simp only [pushesFor, ne_eq, List.map_eq_nil_iff, List.filter_eq_nil_iff, not_forall]
  exact ⟨p, hp, by simp⟩

/-- Pointwise description of `register` off the declared protocols: the
untouched present buckets are merely stably re-sorted in place, absent buckets
stay absent. -/
theorem register_apply_not_mem {D : Type} (h : ProtocolHandler D) (m : ProtocolRegistry D)
    {p : String} (hp : p ∉ h.supported_protocols) :
    ProtocolRegistry.register h m p = (m p).map sortBucket := by
  show (h.supported_protocols.foldl
      (fun acc protocol => updateBucket acc protocol (((acc protocol).getD []) ++ [h])) m p).map
        sortBucket = _
  rw [pushes_foldl_apply]
  have hf : h.supported_protocols.filter (fun q => q == p) = [] := by
    have := pushesFor_eq_nil (h := h) hp
    simpa [pushesFor, List.map_eq_nil_iff] using this
  simp [hf]

/-- Pointwise description of `register` on a declared protocol: the new
entries are appended to the bucket, which is then stably re-sorted. -/
theorem register_apply_mem {D : Type} (h : ProtocolHandler D) (m : ProtocolRegistry D)
    {p : String} (hp : p ∈ h.supported_protocols) :
    ProtocolRegistry.register h m p
      = some (sortBucket ((m p).getD [] ++ pushesFor p h)) := by
  show (h.supported_protocols.foldl
      (fun acc protocol => updateBucket acc protocol (((acc protocol).getD []) ++ [h])) m p).map
        sortBucket = _
  rw [pushes_foldl_apply]
  have hf : ¬h.supported_protocols.filter (fun q => q == p) = [] := by
    intro hc
    exact pushesFor_ne_nil (h := h) hp (by simp [pushesFor, hc])
  simp [hf, pushesFor]

/-- Stability of the bucket sort on any class of pairwise `priorityGE`-related
elements: filtering commutes with the sort. -/
theorem filter_sortBucket {D : Type} (P : ProtocolHandler D → Bool)
    (hP : ∀ x y, P x = true → P y = true → priorityGE x y)
    (l : List (ProtocolHandler D)) :
    (sortBucket l).filter P = l.filter P := by
  have hpw : (l.filter P).Pairwise priorityGE :=
    List.pairwise_of_forall_mem_list fun x hx y hy =>
      hP x y (List.of_mem_filter hx) (List.of_mem_filter hy)
  have hsub : (l.filter P).Sublist (sortBucket l) :=
    List.sublist_insertionSort hpw (List.filter_sublist l)
  have hself : (l.filter P).filter P = l.filter P :=
    List.filter_eq_self.mpr fun a ha => List.of_mem_filter ha
  have hsub2 : (l.filter P).Sublist ((sortBucket l).filter P) := by
    have := List.Sublist.filter P hsub
    rwa [hself] at this
  have hperm : ((sortBucket l).filter P).Perm (l.filter P) :=
    List.Perm.filter P (List.perm_insertionSort _ l)
  exact (hsub2.eq_of_length hperm.length_eq.symm).symm

/-- Appending one registration extends each push sequence on the right. -/
theorem registrationSeq_append {D : Type} (p : String) (hs : List (ProtocolHandler D))
    (h : ProtocolHandler D) :
    registrationSeq p (hs ++ [h]) = registrationSeq p hs ++ pushesFor p h := by
  simp [registrationSeq]

/-- Unfolding a registration sequence from the right. -/
theorem registerAll_append {D : Type} (hs : List (ProtocolHandler D))
    (h : ProtocolHandler D) (m : ProtocolRegistry D) :
    registerAll (hs ++ [h]) m = ProtocolRegistry.register h (registerAll hs m) := by
  simp [registerAll, List.foldl_append]

/-- The full invariant tying a registry state to the registration sequence
that produced it: a bucket is present iff something was pushed onto it, every
present bucket is sorted by descending priority, is a permutation of its push
sequence, and agrees with the push sequence on every equal-priority class
(stability). -/
def bucketSpec {D : Type} (hs : List (ProtocolHandler D)) (m : ProtocolRegistry D) : Prop :=
  ∀ p : String,
    (registrationSeq p hs = [] ↔ m p = none) ∧
    ∀ l, m p = some l →
      List.Sorted priorityGE l ∧
      l.Perm (registrationSeq p hs) ∧
      ∀ k : Nat, l.filter (fun g => g.priority == k)
        = (registrationSeq p hs).filter (fun g => g.priority == k)

/-- The bucket sort produces a list sorted by descending priority. -/
theorem sortBucket_sorted {D : Type} (l : List (ProtocolHandler D)) :
    List.Sorted priorityGE (sortBucket l) :=
  List.sorted_insertionSort priorityGE l

/-- The bucket sort permutes its input. -/
theorem sortBucket_perm {D : Type} (l : List (ProtocolHandler D)) :
    (sortBucket l).Perm l :=
  List.perm_insertionSort priorityGE l

/-- Re-sorting an already sorted bucket does not change it. -/
theorem sortBucket_of_sorted {D : Type} {l : List (ProtocolHandler D)}
    (h : List.Sorted priorityGE l) : sortBucket l = l :=
  List.Sorted.insertionSort_eq h

/-- Handlers of one equal-priority class are pairwise `priorityGE`-related. -/
theorem priorityGE_of_eq_class {D : Type} (k : Nat) :
    ∀ x y : ProtocolHandler D,
      (x.priority == k) = true → (y.priority == k) = true → priorityGE x y := by
  intro x y hx hy
  simp only [beq_iff_eq] at hx hy
  simp [priorityGE, hx, hy]

/-- Every reachable registry state satisfies the bucket invariant relative to
the registration sequence that produced it. -/
theorem registerAll_bucketSpec {D : Type} (hs : List (ProtocolHandler D)) :
    bucketSpec hs (registerAll hs ProtocolRegistry.new) := by
  induction hs using List.reverseRecOn with
  | nil =>
    intro p
    refine ⟨⟨fun _ => rfl, fun _ => rfl⟩, ?_⟩
    intro l hl
    cases hl
  | append_singleton hs h ih =>
    intro p
    rw [registerAll_append, registrationSeq_append]
    obtain ⟨hiff, hsome⟩ := ih p
    by_cases hp : p ∈ h.supported_protocols
    · rw [register_apply_mem h _ hp]
      have hne := pushesFor_ne_nil (h := h) hp
      refine ⟨⟨?_, ?_⟩, ?_⟩
      · intro hnil
        rw [List.append_eq_nil] at hnil
        exact absurd hnil.2 hne
      · intro hnone
        cases hnone
      · intro l hl
        have hl' : sortBucket ((registerAll hs ProtocolRegistry.new p).getD []
            ++ pushesFor p h) = l := Option.some.inj hl
        subst hl'
        have hold : List.Sorted priorityGE ((registerAll hs ProtocolRegistry.new p).getD [])
            ∧ ((registerAll hs ProtocolRegistry.new p).getD []).Perm (registrationSeq p hs)
            ∧ ∀ k : Nat,
              ((registerAll hs ProtocolRegistry.new p).getD []).filter
                  (fun g => g.priority == k)
                = (registrationSeq p hs).filter (fun g => g.priority == k) := by
          cases mo : registerAll hs ProtocolRegistry.new p with
          | none =>
            have hseq : registrationSeq p hs = [] := hiff.mpr mo
            simp [hseq]
          | some l0 =>
            simpa using hsome l0 mo
        obtain ⟨hsorted_old, hperm_old, hfilters_old⟩ := hold
        refine ⟨sortBucket_sorted _, ?_, ?_⟩
        · exact (sortBucket_perm _).trans (List.Perm.append_right _ hperm_old)
        · intro k
          rw [filter_sortBucket _ (priorityGE_of_eq_class k), List.filter_append,
            hfilters_old k, ← List.filter_append]
    · rw [register_apply_not_mem h _ hp, pushesFor_eq_nil hp, List.append_nil]
      refine ⟨⟨?_, ?_⟩, ?_⟩
      · intro hnil
        rw [hiff.mp hnil]
        rfl
      · intro hnone
        cases mo : registerAll hs ProtocolRegistry.new p with
        | none => exact hiff.mpr mo
        | some l0 =>
          rw [mo] at hnone
          cases hnone
      · intro l hl
        cases mo : registerAll hs ProtocolRegistry.new p with
        | none =>
          rw [mo] at hl
          cases hl
        | some l0 =>
          rw [mo] at hl
          obtain ⟨hs0, hp0, hf0⟩ := hsome l0 mo
          have heq : sortBucket l0 = l := Option.some.inj hl
          rw [sortBucket_of_sorted hs0] at heq
          subst heq
          exact ⟨hs0, hp0, hf0⟩

/-- Every reachable registry state is produced by some registration sequence
starting from the empty registry. -/
theorem ProtocolRegistry.Reachable.exists_seq {D : Type} {m : ProtocolRegistry D}
    (hr : ProtocolRegistry.Reachable m) :
    ∃ hs : List (ProtocolHandler D), m = registerAll hs ProtocolRegistry.new := by
  induction hr with
  | new => exact ⟨[], rfl⟩
  | step g hm ih =>
    obtain ⟨hs, rfl⟩ := ih
    exact ⟨hs ++ [g], (registerAll_append hs g _).symm⟩

/-- The factory loop skips every leading protocol whose bucket is absent. -/
theorem registerGo_skip {D : Type} (m : ProtocolRegistry D) (config : Config)
    (pre protos : List String) (hpre : ∀ q ∈ pre, ProtocolRegistry.get_handlers m q = none) :
    DeviceFactory.registerGo m config (pre ++ protos)
      = DeviceFactory.registerGo m config protos := by
  induction pre with
  | nil => rfl
  | cons q rest ih =>
    have hq : ProtocolRegistry.get_handlers m q = none := hpre q (by simp)
    rw [List.cons_append]
    simp only [DeviceFactory.registerGo, hq]
    exact ih fun r hr => hpre r (by simp [hr])

/-- The instrumented factory loop computes the same result as the plain one. -/
theorem registerProbed_fst {D : Type} (m : ProtocolRegistry D) (config : Config)
    (protos : List String) :
    (DeviceFactory.registerProbed m config protos).1
      = DeviceFactory.registerGo m config protos := by
  induction protos with
  | nil => rfl
  | cons q rest ih =>
    cases hg : ProtocolRegistry.get_handlers m q with
    | none =>
      simp only [DeviceFactory.registerProbed, DeviceFactory.registerGo, hg]
      exact ih
    | some handlers =>
      cases hp : config.preferred_handler with
      | none =>
        cases hh : handlers.head? with
        | none =>
          simp only [DeviceFactory.registerProbed, DeviceFactory.registerGo, hg, hp, hh]
          exact ih
        | some handler =>
          simp only [DeviceFactory.registerProbed, DeviceFactory.registerGo, hg, hp, hh]
      | some preferred =>
        cases hf : handlers.find? (fun h => h.name == preferred) with
        | none =>
          simp only [DeviceFactory.registerProbed, DeviceFactory.registerGo, hg, hp, hf]
        | some handler =>
          simp only [DeviceFactory.registerProbed, DeviceFactory.registerGo, hg, hp, hf]

/-- A handler is among its own pushes on each declared protocol. -/
theorem mem_pushesFor {D : Type} {p : String} {h : ProtocolHandler D}
    (hp : p ∈ h.supported_protocols) : h ∈ pushesFor p h := by
  have hpf : p ∈ h.supported_protocols.filter (fun q => q == p) :=
    List.mem_filter.mpr ⟨hp, by simp⟩
  exact List.mem_map.mpr ⟨p, hpf, rfl⟩

/-- Factory loop step: present bucket, preference set and found. -/
theorem registerGo_pref_found {D : Type} {m : ProtocolRegistry D} {config : Config}
    {p : String} (rest : List String) {l : List (ProtocolHandler D)} {x : String}
    {h0 : ProtocolHandler D}
    (hl : ProtocolRegistry.get_handlers m p = some l)
    (hpref : config.preferred_handler = some x)
    (hfind : l.find? (fun g => g.name == x) = some h0) :
    DeviceFactory.registerGo m config (p :: rest) = h0.create_device config := by
  simp only [DeviceFactory.registerGo, hl, hpref, hfind]

/-- Factory loop step: present bucket, preference set and absent. -/
theorem registerGo_pref_missing {D : Type} {m : ProtocolRegistry D} {config : Config}
    {p : String} (rest : List String) {l : List (ProtocolHandler D)} {x : String}
    (hl : ProtocolRegistry.get_handlers m p = some l)
    (hpref : config.preferred_handler = some x)
    (hfind : l.find? (fun g => g.name == x) = none) :
    DeviceFactory.registerGo m config (p :: rest)
      = .error ("Preferred handler \x27" ++ x ++ "\x27 not found for protocol: " ++ p) := by
  simp only [DeviceFactory.registerGo, hl, hpref, hfind]

/-- Factory loop step: present bucket, no preference, head taken. -/
theorem registerGo_no_pref {D : Type} {m : ProtocolRegistry D} {config : Config}
    {p : String} (rest : List String) {l : List (ProtocolHandler D)}
    {h0 : ProtocolHandler D}
    (hl : ProtocolRegistry.get_handlers m p = some l)
    (hpref : config.preferred_handler = none)
    (hhead : l.head? = some h0) :
    DeviceFactory.registerGo m config (p :: rest) = h0.create_device config := by
  simp only [DeviceFactory.registerGo, hl, hpref, hhead]

/-- The instrumented loop records exactly the traversed protocols when every
bucket is absent. -/
theorem registerProbed_snd_of_all_none {D : Type} (m : ProtocolRegistry D) (config : Config) :
    ∀ protos : List String,
      (∀ q ∈ protos, ProtocolRegistry.get_handlers m q = none) →
      (DeviceFactory.registerProbed m config protos).2 = protos := by
  intro protos
  induction protos with
  | nil => intro _; rfl
  | cons q rest ih =>
    intro hall
    have hq : ProtocolRegistry.get_handlers m q = none := hall q (by simp)
    simp only [DeviceFactory.registerProbed, hq]
    rw [ih fun r hr => hall r (by simp [hr])]

/-- Registering more handlers never removes an existing bucket entry. -/
theorem register_mem_mono {D : Type} (g h0 : ProtocolHandler D) (m : ProtocolRegistry D)
    (p : String) (hm : h0 ∈ (m p).getD []) :
    h0 ∈ ((ProtocolRegistry.register g m) p).getD [] := by
  by_cases hp : p ∈ g.supported_protocols
  · rw [register_apply_mem g m hp]
    simp only [Option.getD_some]
    exact (sortBucket_perm _).mem_iff.mpr (List.mem_append.mpr (Or.inl hm))
  · rw [register_apply_not_mem g m hp]
    cases hmp : m p with
    | none => simp [hmp] at hm
    | some l0 =>
      rw [hmp] at hm
      simp only [Option.getD_some] at hm
      simp only [hmp, Option.map_some', Option.getD_some]
      exact (sortBucket_perm _).mem_iff.mpr hm

/-- One step of `registerAll` unfolded. -/
theorem registerAll_cons {D : Type} (g : ProtocolHandler D) (rest : List (ProtocolHandler D))
    (m : ProtocolRegistry D) :
    registerAll (g :: rest) m = registerAll rest (ProtocolRegistry.register g m) := rfl

/-- A whole registration sequence never removes an existing bucket entry. -/
theorem registerAll_mem_mono {D : Type} (order : List (ProtocolHandler D))
    (m : ProtocolRegistry D) (p : String) (h0 : ProtocolHandler D)
    (hm : h0 ∈ (m p).getD []) :
    h0 ∈ ((registerAll order m) p).getD [] := by
  induction order generalizing m with
  | nil => exact hm
  | cons g rest ih =>
    rw [registerAll_cons]
    exact ih _ (register_mem_mono g h0 m p hm)

/-- Every handler of a registration sequence ends up in the bucket of each
protocol it declares. -/
theorem mem_registerAll {D : Type} (order : List (ProtocolHandler D))
    {h0 : ProtocolHandler D} {p : String} (hp : p ∈ h0.supported_protocols)
    (m : ProtocolRegistry D) (hh : h0 ∈ order) :
    h0 ∈ ((registerAll order m) p).getD [] := by
  induction order generalizing m with
  | nil => cases hh
  | cons g rest ih =>
    rw [registerAll_cons]
    rcases List.mem_cons.mp hh with rfl | hrest
    · have h1 : h0 ∈ ((ProtocolRegistry.register h0 m) p).getD [] := by
        rw [register_apply_mem h0 m hp]
        simp only [Option.getD_some]
        exact (sortBucket_perm _).mem_iff.mpr
          (List.mem_append.mpr (Or.inr (mem_pushesFor hp)))
      exact registerAll_mem_mono rest _ p h0 h1
    · exact ih _ hrest

/-! ### Claim theorems -/

/-- C1: after any sequence of `register` calls starting from the empty
registry, every handler list returned by `get_handlers(p)` is sorted by
non-increasing priority, and within each equal-priority class the relative
order is exactly the order in which the entries were registered for `p`
(stable sort). -/
theorem get_handlers_sorted_stable {D : Type} (hs : List (ProtocolHandler D)) (p : String)
    (l : List (ProtocolHandler D))
    (hl : ProtocolRegistry.get_handlers (registerAll hs ProtocolRegistry.new) p = some l) :
    List.Sorted priorityGE l ∧
    ∀ k : Nat, l.filter (fun g => g.priority == k)
      = (registrationSeq p hs).filter (fun g => g.priority == k) := by
  obtain ⟨-, hsome⟩ := registerAll_bucketSpec hs p
  obtain ⟨h1, -, h3⟩ := hsome l hl
  exact ⟨h1, h3⟩

/-- Witness for C1: registering H1 (priority 5) then H2 (priority 10) yields
the zigbee bucket `[H2, H1]`, which the theorem certifies sorted and stable. -/
theorem get_handlers_sorted_stable_witness :
    ProtocolRegistry.get_handlers (registerAll [H1, H2] ProtocolRegistry.new) "zigbee"
        = some [H2, H1] ∧
      (List.Sorted priorityGE [H2, H1] ∧
        ∀ k : Nat, [H2, H1].filter (fun g => g.priority == k)
          = (registrationSeq "zigbee" [H1, H2]).filter (fun g => g.priority == k)) :=
  ⟨rfl, get_handlers_sorted_stable [H1, H2] "zigbee" [H2, H1] rfl⟩

/-- C2: with no preferred handler, the factory scans the configured protocols
in order and, at the first one with a non-empty bucket, returns the result of
`create_device` of the handler at the head of that bucket, which has maximal
priority in the bucket. -/
theorem create_no_pref_uses_head_of_first_bucket {D : Type}
    (hs : List (ProtocolHandler D)) (config : Config) (pre : List String) (p : String)
    (rest : List String) (l : List (ProtocolHandler D)) (h0 : ProtocolHandler D)
    (hsplit : config.supported_protocols = pre ++ p :: rest)
    (hpre : ∀ q ∈ pre,
      ProtocolRegistry.get_handlers (registerAll hs ProtocolRegistry.new) q = none)
    (hl : ProtocolRegistry.get_handlers (registerAll hs ProtocolRegistry.new) p = some l)
    (hhead : l.head? = some h0)
    (hpref : config.preferred_handler = none) :
    DeviceFactory.register (registerAll hs ProtocolRegistry.new) config
        = h0.create_device config ∧
      ∀ g ∈ l, g.priority ≤ h0.priority := by
  constructor
  · rw [DeviceFactory.register, hsplit, registerGo_skip _ _ _ _ hpre]
    exact registerGo_no_pref rest hl hpref hhead
  · obtain ⟨-, hsome⟩ := registerAll_bucketSpec hs p
    obtain ⟨hsorted, -, -⟩ := hsome l hl
    cases l with
    | nil => cases hhead
    | cons a t =>
      obtain rfl : a = h0 := by simpa using hhead
      intro g hg
      rcases List.mem_cons.mp hg with rfl | hgt
      · exact le_refl _
      · exact (List.pairwise_cons.mp hsorted).1 g hgt

/-- Witness for C2: with H1 and H2 registered, `cfgNoPref` (protocols
nope, wifi, zigbee; no preference) is served by H2, the head of the wifi
bucket, producing device 2. -/
theorem create_no_pref_uses_head_of_first_bucket_witness :
    DeviceFactory.register (registerAll [H1, H2] ProtocolRegistry.new) cfgNoPref
        = Except.ok 2 ∧
      ∀ g ∈ [H2], g.priority ≤ H2.priority := by
  have happ := create_no_pref_uses_head_of_first_bucket [H1, H2] cfgNoPref
    ["nope"] "wifi" ["zigbee"] [H2] H2 rfl
    (by intro q hq; rw [List.mem_singleton] at hq; subst hq; rfl) rfl rfl rfl
  exact ⟨happ.1.trans rfl, happ.2⟩

/-- C3: when a preferred handler is named but absent from the first protocol
bucket the loop reaches, the factory fails with the handler-not-found error
naming the preference and that protocol — no fallback to the bucket head and
no continuation to later protocols (the trailing protocols `rest` are
arbitrary, so a later bucket may well contain the preferred name). -/
theorem create_pref_missing_errors {D : Type} (m : ProtocolRegistry D) (config : Config)
    (pre : List String) (p : String) (rest : List String)
    (l : List (ProtocolHandler D)) (x : String)
    (hsplit : config.supported_protocols = pre ++ p :: rest)
    (hpre : ∀ q ∈ pre, ProtocolRegistry.get_handlers m q = none)
    (hl : ProtocolRegistry.get_handlers m p = some l)
    (_hne : l ≠ [])
    (hpref : config.preferred_handler = some x)
    (hmiss : ∀ g ∈ l, g.name ≠ x) :
    DeviceFactory.register m config
      = .error ("Preferred handler \x27" ++ x ++ "\x27 not found for protocol: " ++ p) := by
  rw [DeviceFactory.register, hsplit, registerGo_skip _ _ _ _ hpre]
  have hfind : l.find? (fun g => g.name == x) = none :=
    List.find?_eq_none.mpr fun g hg => by simp [hmiss g hg]
  exact registerGo_pref_missing rest hl hpref hfind

/-- Witness for C3: with H1 and H2 registered, `cfgPref` prefers "H1" and
lists wifi first; the wifi bucket is `[H2]`, so the factory errors, even
though the later zigbee bucket does contain a handler named "H1". -/
theorem create_pref_missing_errors_witness :
    DeviceFactory.register (registerAll [H1, H2] ProtocolRegistry.new) cfgPref
        = .error "Preferred handler \x27H1\x27 not found for protocol: wifi" ∧
      H1 ∈ (ProtocolRegistry.get_handlers (registerAll [H1, H2] ProtocolRegistry.new)
        "zigbee").getD [] := by
  constructor
  · have happ := create_pref_missing_errors (registerAll [H1, H2] ProtocolRegistry.new)
      cfgPref [] "wifi" ["zigbee"] [H2] "H1" rfl
      (by intro q hq; cases hq) rfl (by intro hc; cases hc) rfl
      (by intro g hg; rw [List.mem_singleton] at hg; subst hg; decide)
    exact happ.trans (by rfl)
  · show H1 ∈ (some [H2, H1]).getD []
    simp

/-- C4: when none of the configured protocols has a registered bucket, the
factory fails with the no-compatible-handler error carrying the device name,
and it consults the registry for every protocol in the list before doing so
(the instrumented loop records the full list). -/
theorem create_no_handlers_errors_after_full_scan {D : Type} (m : ProtocolRegistry D)
    (config : Config)
    (hnone : ∀ q ∈ config.supported_protocols, ProtocolRegistry.get_handlers m q = none) :
    DeviceFactory.register m config
        = .error ("No compatible protocol handler found for device: " ++ config.name) ∧
      (DeviceFactory.registerProbed m config config.supported_protocols).2
        = config.supported_protocols := by
  constructor
  · rw [DeviceFactory.register, ← List.append_nil config.supported_protocols,
      registerGo_skip _ _ _ _ (by simpa using hnone)]
    rfl
  · exact registerProbed_snd_of_all_none m config _ hnone

/-- Witness for C4: with only H1 and H2 registered, `cfgLost` (protocols foo
and bar) fails with `NoCompatibleHandler`-style error after probing both. -/
theorem create_no_handlers_errors_after_full_scan_witness :
    DeviceFactory.register (registerAll [H1, H2] ProtocolRegistry.new) cfgLost
        = .error "No compatible protocol handler found for device: lamp3" ∧
      (DeviceFactory.registerProbed (registerAll [H1, H2] ProtocolRegistry.new) cfgLost
        cfgLost.supported_protocols).2 = cfgLost.supported_protocols := by
  have happ := create_no_handlers_errors_after_full_scan
    (registerAll [H1, H2] ProtocolRegistry.new) cfgLost
    (by
      intro q hq
      rcases List.mem_cons.mp hq with rfl | hq2
      · rfl
      · rw [List.mem_singleton] at hq2; subst hq2; rfl)
  exact ⟨happ.1.trans (by rfl), happ.2⟩

/-- C5: once the loop reaches the first protocol with a present bucket and a
handler is selected — by preference lookup or as the bucket head — the factory
returns exactly that handler's `create_device` result, success or error, with
no retry and no continuation to later protocols. -/
theorem create_returns_selected_handler_result {D : Type} (m : ProtocolRegistry D)
    (config : Config) (pre : List String) (p : String) (rest : List String)
    (l : List (ProtocolHandler D)) (h0 : ProtocolHandler D)
    (hsplit : config.supported_protocols = pre ++ p :: rest)
    (hpre : ∀ q ∈ pre, ProtocolRegistry.get_handlers m q = none)
    (hl : ProtocolRegistry.get_handlers m p = some l)
    (hsel : (∃ x, config.preferred_handler = some x
            ∧ l.find? (fun g => g.name == x) = some h0)
          ∨ (config.preferred_handler = none ∧ l.head? = some h0)) :
    DeviceFactory.register m config = h0.create_device config := by
  rw [DeviceFactory.register, hsplit, registerGo_skip _ _ _ _ hpre]
  rcases hsel with ⟨x, hpref, hfind⟩ | ⟨hpref, hhead⟩
  · exact registerGo_pref_found rest hl hpref hfind
  · exact registerGo_no_pref rest hl hpref hhead

/-- Witness for C5: with H1, H2 and the failing H4 registered, `cfgFail`
prefers "H4" on zigbee; the factory returns H4's creation error unchanged even
though the wifi bucket later in the list could serve the device. -/
theorem create_returns_selected_handler_result_witness :
    DeviceFactory.register (registerAll [H1, H2, H4] ProtocolRegistry.new) cfgFail
        = .error "boom" ∧
      ProtocolRegistry.get_handlers (registerAll [H1, H2, H4] ProtocolRegistry.new) "wifi"
        = some [H2] := by
  have happ := create_returns_selected_handler_result
    (registerAll [H1, H2, H4] ProtocolRegistry.new) cfgFail [] "zigbee" ["wifi"]
    [H2, H4, H1] H4 rfl (by intro q hq; cases hq) rfl
    (Or.inl ⟨"H4", rfl, by rfl⟩)
  exact ⟨happ.trans (by rfl), rfl⟩

/-- C6: after `register(h)`, `h` is present in the bucket of every protocol it
declares, and for any protocol it did not declare, `register(h)` does not add
`h` there (membership of `h` in that bucket is exactly what it was before). -/
theorem register_adds_to_declared_buckets_only {D : Type} (m : ProtocolRegistry D)
    (h : ProtocolHandler D) (p : String) :
    (p ∈ h.supported_protocols →
        ∃ l, ProtocolRegistry.register h m p = some l ∧ h ∈ l) ∧
    (p ∉ h.supported_protocols →
        (h ∈ (ProtocolRegistry.register h m p).getD [] ↔ h ∈ (m p).getD [])) := by
  constructor
  · intro hp
    rw [register_apply_mem h m hp]
    exact ⟨_, rfl, (sortBucket_perm _).mem_iff.mpr
      (List.mem_append.mpr (Or.inr (mem_pushesFor hp)))⟩
  · intro hp
    rw [register_apply_not_mem h m hp]
    cases hm : m p with
    | none => simp
    | some l0 =>
      simp only [Option.map_some', Option.getD_some]
      exact (sortBucket_perm _).mem_iff

/-- Witness for C6: registering H2 into the empty registry puts it in the wifi
bucket it declares and adds nothing to the undeclared "nope" bucket. -/
theorem register_adds_to_declared_buckets_only_witness :
    (∃ l, ProtocolRegistry.register H2 ProtocolRegistry.new "wifi" = some l ∧ H2 ∈ l) ∧
    (H2 ∈ (ProtocolRegistry.register H2 ProtocolRegistry.new "nope").getD []
      ↔ H2 ∈ (ProtocolRegistry.new (D := Nat) "nope").getD []) :=
  ⟨(register_adds_to_declared_buckets_only ProtocolRegistry.new H2 "wifi").1 (by decide),
   (register_adds_to_declared_buckets_only ProtocolRegistry.new H2 "nope").2 (by decide)⟩

/-- C7: on any reachable registry state (handler priorities are fixed values
in the embedding), `register(h)` leaves every bucket of a protocol `h` does
not declare exactly as it was: the blanket re-sort of all buckets is
observationally a no-op there, because reachable buckets are already sorted
and the sort is stable. -/
theorem register_preserves_undeclared_buckets {D : Type} {m : ProtocolRegistry D}
    (hr : ProtocolRegistry.Reachable m) (h : ProtocolHandler D) {p : String}
    (hp : p ∉ h.supported_protocols) :
    ProtocolRegistry.register h m p = m p := by
  rw [register_apply_not_mem h m hp]
  obtain ⟨hs, rfl⟩ := hr.exists_seq
  obtain ⟨-, hsome⟩ := registerAll_bucketSpec hs p
  cases hm : registerAll hs ProtocolRegistry.new p with
  | none => rfl
  | some l0 =>
    obtain ⟨hs0, -, -⟩ := hsome l0 hm
    simp only [Option.map_some']
    rw [sortBucket_of_sorted hs0]

/-- Witness for C7: re-registering H1 does not change the (undeclared) wifi
entry of the registry holding one H1 registration. -/
theorem register_preserves_undeclared_buckets_witness :
    ProtocolRegistry.register H1 (ProtocolRegistry.register H1 ProtocolRegistry.new) "wifi"
      = ProtocolRegistry.register H1 ProtocolRegistry.new "wifi" :=
  register_preserves_undeclared_buckets
    (ProtocolRegistry.Reachable.step H1 ProtocolRegistry.Reachable.new) H1 (by decide)

/-- C8: `register` is not idempotent: registering the same handler twice
leaves two entries for it in the bucket of each protocol it declares
(duplicates are kept, not removed). -/
theorem register_not_idempotent {D : Type} (m : ProtocolRegistry D) (h : ProtocolHandler D)
    (p : String) (hp : p ∈ h.supported_protocols) :
    ∃ l, ProtocolRegistry.register h (ProtocolRegistry.register h m) p = some l ∧
      [h, h].Subperm l := by
  rw [register_apply_mem h _ hp]
  refine ⟨_, rfl, ?_⟩
  rw [register_apply_mem h m hp]
  simp only [Option.getD_some]
  have h1 : h ∈ sortBucket ((m p).getD [] ++ pushesFor p h) :=
    (sortBucket_perm _).mem_iff.mpr (List.mem_append.mpr (Or.inr (mem_pushesFor hp)))
  have hsub : List.Sublist [h, h]
      (sortBucket ((m p).getD [] ++ pushesFor p h) ++ pushesFor p h) := by
    have hx := List.Sublist.append (List.singleton_sublist.mpr h1)
      (List.singleton_sublist.mpr (mem_pushesFor hp))
    simpa using hx
  exact hsub.subperm.trans (sortBucket_perm _).symm.subperm

/-- Witness for C8: registering H1 twice into the empty registry leaves two
H1 entries in the zigbee bucket. -/
theorem register_not_idempotent_witness :
    ∃ l, ProtocolRegistry.register H1 (ProtocolRegistry.register H1 ProtocolRegistry.new)
        "zigbee" = some l ∧ [H1, H1].Subperm l :=
  register_not_idempotent ProtocolRegistry.new H1 "zigbee" (by decide)

/-- C9: in every reachable registry state a present bucket is non-empty, so
`get_handlers` never returns a present-but-empty list; consequently the
factory loop never falls through past a present bucket to a later protocol
(its result on `p :: rest` ignores `rest`). -/
theorem reachable_buckets_nonempty {D : Type} {m : ProtocolRegistry D}
    (hr : ProtocolRegistry.Reachable m) (p : String) (l : List (ProtocolHandler D))
    (hl : ProtocolRegistry.get_handlers m p = some l) :
    l ≠ [] ∧
    ∀ (config : Config) (rest : List String),
      DeviceFactory.registerGo m config (p :: rest)
        = DeviceFactory.registerGo m config [p] := by
  obtain ⟨hs, rfl⟩ := hr.exists_seq
  obtain ⟨hiff, hsome⟩ := registerAll_bucketSpec hs p
  obtain ⟨-, hperm, -⟩ := hsome l hl
  have hne : l ≠ [] := by
    intro hnil
    subst hnil
    have hseq : registrationSeq p hs = [] := hperm.symm.eq_nil
    have hl' : registerAll hs ProtocolRegistry.new p = some [] := hl
    rw [hiff.mp hseq] at hl'
    cases hl'
  refine ⟨hne, ?_⟩
  intro config rest
  cases hpref : config.preferred_handler with
  | some x =>
    cases hf : l.find? (fun g => g.name == x) with
    | none =>
      rw [registerGo_pref_missing rest hl hpref hf, registerGo_pref_missing [] hl hpref hf]
    | some h0 =>
      rw [registerGo_pref_found rest hl hpref hf, registerGo_pref_found [] hl hpref hf]
  | none =>
    cases l with
    | nil => exact absurd rfl hne
    | cons a t =>
      rw [registerGo_no_pref rest hl hpref rfl, registerGo_no_pref [] hl hpref rfl]

/-- Witness for C9: the zigbee bucket of a registry holding one H1
registration is the non-empty `[H1]`, and the factory loop's result from
zigbee onward ignores the remaining protocols. -/
theorem reachable_buckets_nonempty_witness :
    ([H1] : List (ProtocolHandler Nat)) ≠ [] ∧
    ∀ (config : Config) (rest : List String),
      DeviceFactory.registerGo (ProtocolRegistry.register H1 ProtocolRegistry.new) config
          ("zigbee" :: rest)
        = DeviceFactory.registerGo (ProtocolRegistry.register H1 ProtocolRegistry.new) config
          ["zigbee"] :=
  reachable_buckets_nonempty
    (ProtocolRegistry.Reachable.step H1 ProtocolRegistry.Reachable.new) "zigbee" [H1] rfl

/-- C10: concurrent registration modelled by linearization: each `register`
call holds the registry's write lock for its whole body, so any concurrent
execution of N registrations is equivalent to some sequential order, i.e. a
permutation of the handlers; in every such order, every one of the N distinct
handlers ends up in the bucket of every protocol it declares — no entry is
lost. -/
theorem concurrent_registration_all_present {D : Type}
    (hs order : List (ProtocolHandler D)) (hperm : order.Perm hs) (_hnd : hs.Nodup)
    (h : ProtocolHandler D) (hh : h ∈ hs) (p : String)
    (hp : p ∈ h.supported_protocols) :
    h ∈ ((registerAll order ProtocolRegistry.new) p).getD [] :=
  mem_registerAll order hp ProtocolRegistry.new (hperm.mem_iff.mpr hh)

/-- Witness for C10: the interleaving that registers H2 before H1 still
leaves H1 in the zigbee bucket. -/
theorem concurrent_registration_all_present_witness :
    H1 ∈ ((registerAll [H2, H1] ProtocolRegistry.new) "zigbee").getD [] :=
  concurrent_registration_all_present [H1, H2] [H2, H1] (List.Perm.swap H1 H2 [])
    (by
      refine List.nodup_cons.mpr ⟨?_, List.nodup_singleton H2⟩
      intro hmem
      rw [List.mem_singleton] at hmem
      exact absurd (congrArg ProtocolHandler.priority hmem) (by decide))
    H1 (List.mem_cons_self H1 [H2]) "zigbee" (by decide)
